import Mathlib

/-!
Verification of the gpt-crawler output pipeline.

This file shallowly embeds the two source files of the repository that the
claims concern: the batch writer (`write` / `addContentOrSplit` /
`writeBatchToFile`), the pattern matcher (`extractFilename`), and the
per-page writer (`savePageToFile`).

Modelling conventions:
* Records are abstract (a type parameter `α`); the two external measure
  functions the code applies to a record's JSON serialization —
  `isWithinTokenLimit (JSON.stringify data, limit)` from gpt-tokenizer and
  `Buffer.byteLength (JSON.stringify data)` — are modelled by parameters
  `tc bs : α → Nat` giving each record's token count and byte size.
* JavaScript `Infinity` / `undefined` limits are modelled by `Option Nat`
  with `none` for "no limit"; the comparison `x > config.maxTokens!` when
  `maxTokens` is `undefined` is `false` in JavaScript (NaN semantics), and
  `x > Infinity` is also `false`, so both are `jsGt x none = false`.
* The filesystem effect of `writeFile` in the batch writer is modelled by
  accumulating, in `files`, the pairs `(fileCounter, currentResults)` in
  write order, together with the last written file name.
-/

/-- The slice of `Config` read by the batch writer: `maxFileSize` (MB),
`maxTokens`, and `outputFileName`.  Unset optional fields are `none`. -/
structure WConfig where
  maxFileSize : Option Nat
  maxTokens : Option Nat
  outputFileName : String

/-- `maxBytes = config.maxFileSize ? config.maxFileSize * 1024 * 1024 : Infinity`. -/
def maxBytes (cfg : WConfig) : Option Nat :=
  cfg.maxFileSize.map (fun m => m * 1024 * 1024)

/-- JavaScript `x > limit` where `limit` is `Infinity` or `undefined` when
the option is `none` (both compare `false`). -/
def jsGt (x : Nat) : Option Nat → Bool
  | none => false
  | some m => decide (m < x)

/-- JavaScript `config.maxTokens || Infinity`: `undefined` and `0` are falsy. -/
def tokenLimitArg : Option Nat → Option Nat
  | none => none
  | some m => if m = 0 then none else some m

/-- gpt-tokenizer `isWithinTokenLimit(text, limit)`: returns the token
count when it does not exceed the limit, `false` (here `none`) otherwise.
The text is abstracted to its token count. -/
def isWithinTokenLimit (tokens : Nat) : Option Nat → Option Nat
  | none => some tokens
  | some limit => if tokens ≤ limit then some tokens else none

/-- The mutable state of `write`: the open batch `currentResults`, the
running byte counter `currentSize`, the file counter, the running token
estimate, plus the observable output — the files written so far (file
counter and contents, in write order) and `nextFileNameString`. -/
structure WState (α : Type) where
  currentResults : List α
  currentSize : Nat
  fileCounter : Nat
  estimatedTokens : Nat
  files : List (Nat × List α)
  nextFileNameString : String

/-- Initial state of `write`. -/
def initWState {α : Type} : WState α :=
  { currentResults := []
    currentSize := 0
    fileCounter := 1
    estimatedTokens := 0
    files := []
    nextFileNameString := "" }

/-- `config.outputFileName.replace(/\.json$/, "")`. -/
def stripJsonSuffix (s : String) : String :=
  match s.data.reverse with
  | 'n' :: 'o' :: 's' :: 'j' :: '.' :: rest => String.mk rest.reverse
  | _ => s

/-- `` `${config.outputFileName.replace(/\.json$/, "")}-${fileCounter}.json` ``. -/
def nextFileName (cfg : WConfig) (n : Nat) : String :=
  stripJsonSuffix cfg.outputFileName ++ "-" ++ toString n ++ ".json"

/-- `writeBatchToFile`: writes `currentResults` to the next numbered file,
then resets `currentResults` and `currentSize` and increments
`fileCounter`.  (It does not touch `estimatedTokens`.) -/
def writeBatchToFile {α : Type} (cfg : WConfig) (s : WState α) : WState α :=
  { s with
    nextFileNameString := nextFileName cfg s.fileCounter
    files := s.files ++ [(s.fileCounter, s.currentResults)]
    currentResults := []
    currentSize := 0
    fileCounter := s.fileCounter + 1 }

/-- The token branch of `addContentOrSplit` (everything before
`currentSize += ...`): compute `tokenCount`; when it is a number, either
admit the record, or flush a non-empty batch and re-admit it with the
half-credit heuristic; when it is `false`, do nothing. -/
def tokenStep {α : Type} (cfg : WConfig) (tc : α → Nat) (s : WState α) (d : α) :
    WState α :=
  match isWithinTokenLimit (tc d) (tokenLimitArg cfg.maxTokens) with
  | some tokenCount =>
    if jsGt (s.estimatedTokens + tokenCount) cfg.maxTokens then
      let s' := if s.currentResults.length > 0 then writeBatchToFile cfg s else s
      { s' with
        estimatedTokens := tokenCount / 2
        currentResults := s'.currentResults ++ [d] }
    else
      { s with
        currentResults := s.currentResults ++ [d]
        estimatedTokens := s.estimatedTokens + tokenCount }
  | none => s

/-- The byte branch of `addContentOrSplit`: `currentSize += recordBytes`,
then flush if `currentSize > maxBytes`. -/
def byteStep {α : Type} (cfg : WConfig) (bs : α → Nat) (s : WState α) (d : α) :
    WState α :=
  let s' := { s with currentSize := s.currentSize + bs d }
  if jsGt s'.currentSize (maxBytes cfg) then writeBatchToFile cfg s' else s'

/-- `addContentOrSplit`: token branch, then byte branch. -/
def addContentOrSplit {α : Type} (cfg : WConfig) (tc bs : α → Nat)
    (s : WState α) (d : α) : WState α :=
  byteStep cfg bs (tokenStep cfg tc s d) d

/-- `write`: stream every record through `addContentOrSplit`, then flush a
non-empty remainder. -/
def write {α : Type} (cfg : WConfig) (tc bs : α → Nat) (records : List α) :
    WState α :=
  let s := records.foldl (addContentOrSplit cfg tc bs) initWState
  if s.currentResults.length > 0 then writeBatchToFile cfg s else s

/-- Total byte size of a batch, as the sum of the records' serialized sizes. -/
def sumBytes {α : Type} (bs : α → Nat) (l : List α) : Nat :=
  (l.map bs).sum

/-- The input stream reconstructed from a final state: the contents of all
written files in write order, then the still-open batch. -/
def outputSeq {α : Type} (s : WState α) : List α :=
  (s.files.map Prod.snd).flatten ++ s.currentResults

/-- A record is admitted by the token branch iff its token count is within
`maxTokens` (always, when `maxTokens` is unset). -/
def tokenOk (cfg : WConfig) {α : Type} (tc : α → Nat) (d : α) : Bool :=
  (isWithinTokenLimit (tc d) (tokenLimitArg cfg.maxTokens)).isSome

/-!
The pattern matcher, `extractFilename(url, matchPattern)`.

The code builds a JavaScript regex from each glob pattern by
`p.replace(/\*\*/g, "(.+)")` and uses `regex.test(url)` /
`url.match(regex)`.  We embed the resulting regexes for the fragment the
crawler's patterns live in: alternating fixed literal chunks and `(.+)`
groups, where inside a literal chunk the regex character `.` matches any
character other than a newline and every other character matches itself.
Because every literal chunk consumes a fixed number of characters, the
only backtracking choice points of the JavaScript engine are the start
offset (leftmost first) and the group lengths (longest first), which the
matcher below reproduces exactly.
-/

/-- Split a pattern's characters at each (non-overlapping, left-to-right)
occurrence of `**`, mirroring `p.replace(/\*\*/g, "(.+)")`: the result is
the list of literal chunks between the `(.+)` groups. -/
def splitStarStar : List Char → List (List Char)
  | [] => [[]]
  | '*' :: '*' :: rest => [] :: splitStarStar rest
  | c :: rest =>
    match splitStarStar rest with
    | [] => [[c]]
    | l :: ls => (c :: l) :: ls

/-- Match a literal chunk at the front of the input, returning the rest of
the input; the regex character `.` matches any character except `\n`. -/
def litMatches : List Char → List Char → Option (List Char)
  | [], s => some s
  | _ :: _, [] => none
  | c :: cs, d :: ds =>
    if c = d ∨ (c = '.' ∧ d ≠ '\n') then litMatches cs ds else none

/-- The candidate `(group, suffix)` splits of the input after a `(.+)`,
in the greedy order the JavaScript engine tries them: group length
`rest.length` first, down to `1`. -/
def splitCandidates (rest : List Char) : List (List Char × List Char) :=
  (List.range rest.length).map
    (fun i => (rest.take (rest.length - i), rest.drop (rest.length - i)))

/-- Try each candidate split in order: capture the group and continue with
`f` on the suffix; first success wins. -/
def searchSplit (f : List Char → Option (List (List Char))) :
    List (List Char × List Char) → Option (List (List Char))
  | [] => none
  | (g, suf) :: cs =>
    match f suf with
    | some gs => some (g :: gs)
    | none => searchSplit f cs

/-- Match `L₀(.+)L₁(.+)...Lₙ` at the current position, returning the list
of captured groups (the regex is not end-anchored, so input may remain
after the final literal).  Group lengths are tried greedily. -/
def matchLits : List (List Char) → List Char → Option (List (List Char))
  | [], _ => some []
  | [l], s => (litMatches l s).map (fun _ => [])
  | l :: l' :: ls, s =>
    match litMatches l s with
    | none => none
    | some rest =>
      searchSplit (fun suf => matchLits (l' :: ls) suf) (splitCandidates rest)

/-- `url.match(regex)` for the regex built from a pattern: try start
offsets left to right (including the position at the end of the input) and
return the captured groups of the first successful one. -/
def regexSearch (lits : List (List Char)) : List Char → Option (List (List Char))
  | [] => matchLits lits []
  | s@(_ :: rest) =>
    match matchLits lits s with
    | some gs => some gs
    | none => regexSearch lits rest

/-- `url.match(new RegExp(pattern.replace(/\*\*/g, "(.+)")))`, reduced to
its list of captured groups (`none` when the regex does not match). -/
def jsRegexMatch (pat url : String) : Option (List (List Char)) :=
  regexSearch (splitStarStar pat.data) url.data

/-- `new RegExp(p.replace(/\*\*/g, "(.+)")).test(url)`. -/
def regexTest (pat url : String) : Bool :=
  (jsRegexMatch pat url).isSome

/-- `url.split("/")` on the character list. -/
def splitOnSlash : List Char → List (List Char)
  | [] => [[]]
  | c :: rest =>
    if c = '/' then [] :: splitOnSlash rest
    else
      match splitOnSlash rest with
      | [] => [[c]]
      | l :: ls => (c :: l) :: ls

/-- `url.split("/").pop()`: the final segment (possibly empty). -/
def lastSegment (url : String) : String :=
  String.mk ((splitOnSlash url.data).getLastD [])

/-- `url.split("/").pop() || "index"`: the empty string is falsy. -/
def fallbackName (url : String) : String :=
  let seg := lastSegment url
  if seg = "" then "index" else seg

/-- `.replace(/^\/+|\/+$/g, "")`: strip leading and trailing slashes. -/
def stripSlashes (g : List Char) : List Char :=
  ((g.dropWhile (· = '/')).reverse.dropWhile (· = '/')).reverse

/-- One character of `.replace(/\//g, "_")`. -/
def replaceSlash (c : Char) : Char :=
  if c = '/' then '_' else c

/-- One character of `.toLowerCase()` (ASCII range, as in the URLs at hand). -/
def toLowerChar (c : Char) : Char :=
  if 'A' ≤ c ∧ c ≤ 'Z' then Char.ofNat (c.toNat + 32) else c

/-- The clean-up applied to a captured group: strip leading/trailing
slashes, replace remaining slashes with underscores, lowercase. -/
def cleanGroup (g : List Char) : String :=
  String.mk (((stripSlashes g).map replaceSlash).map toLowerChar)

/-- `extractFilename(url, matchPattern)`.  The `string | string[]`
normalization at its head is modelled by taking the pattern list directly.
`match && match[1]` requires a successful match whose first captured group
is a non-empty string; otherwise the URL-based fallback is used. -/
def extractFilename (url : String) (patterns : List String) : String :=
  match patterns.find? (fun p => regexTest p url) with
  | none => fallbackName url
  | some pat =>
    match jsRegexMatch pat url with
    | some (g :: _) => if g.isEmpty then fallbackName url else cleanGroup g
    | _ => fallbackName url

/-!
The per-page writer, `savePageToFile(data, config)`.

The filesystem is modelled as a finite map from paths to the page record
last written there; `writeFile` creates or silently overwrites the target
path (it performs no existence check), which is exactly Node's `writeFile`
semantics that the claim about collisions is concerned with.
-/

/-- A crawled page record, `{ title, url, html }`. -/
structure PageData where
  title : String
  url : String
  html : String
deriving DecidableEq

/-- The slice of `Config` read by the per-page writer; `matchPatterns`
models `config.match` after the `string | string[]` normalization. -/
structure PageConfig where
  savePerPage : Bool
  matchPatterns : List String
  outputFileName : String

/-- `config.outputFileName.replace(/\.[^/.]+$/, "")`: strip a final
extension (a dot followed by at least one character that is neither a dot
nor a slash, at the end of the string). -/
def stripExtension (s : String) : String :=
  let r := s.data.reverse
  let ext := r.takeWhile (fun c => ¬(c = '.' ∨ c = '/'))
  match r.drop ext.length with
  | '.' :: rest => if ext.isEmpty then s else String.mk rest.reverse
  | _ => s

/-- The path the per-page writer targets for a record's URL:
`pages/<outputStem>/<extractFilename(url, config.match)>.json`. -/
def pageFilePath (cfg : PageConfig) (url : String) : String :=
  "pages/" ++ stripExtension cfg.outputFileName ++ "/" ++
    extractFilename url cfg.matchPatterns ++ ".json"

/-- `savePageToFile`: a no-op unless `savePerPage`; otherwise overwrite
the derived path with the record. -/
def savePageToFile (cfg : PageConfig) (fs : String → Option PageData)
    (d : PageData) : String → Option PageData :=
  if cfg.savePerPage then
    fun q => if q = pageFilePath cfg d.url then some d else fs q
  else fs

/-- The per-page store after a crawl: every captured record passed through
`savePageToFile` in capture order. -/
def processPages (cfg : PageConfig) (fs : String → Option PageData)
    (rs : List PageData) : String → Option PageData :=
  rs.foldl (savePageToFile cfg) fs

/-- Invariant of the byte accounting of `write` when `maxBytes = some M`:
the open batch's bytes are covered by `currentSize`, `currentSize` never
rests above `M`, and every written file fits in `M` once its final record
is set aside. -/
def ByteInv {α : Type} (bs : α → Nat) (M : Nat) (s : WState α) : Prop :=
  sumBytes bs s.currentResults ≤ s.currentSize ∧
  s.currentSize ≤ M ∧
  ∀ f ∈ s.files, sumBytes bs f.2.dropLast ≤ M

/-!
Theorems.  Each claim Cn of the specification is settled below; concrete
configurations and record streams instantiate the record type `α` with
`Nat` and read a record's token count / byte size off the record itself.
-/

/-- C1 counterexample: with `maxTokens = 1`, a record whose token count
alone (2) exceeds the limit is NOT admitted into the current batch —
`isWithinTokenLimit` returns `false`, the whole token branch is skipped,
`estimatedTokens` stays `0` (not `floor(2/2) = 1`), and the record appears
in no output file: it is silently dropped. -/
theorem c1_counterexample :
    (tokenStep ⟨none, some 1, "out.json"⟩ (fun _ => 2)
      (initWState : WState Nat) 0).currentResults = [] ∧
    (tokenStep ⟨none, some 1, "out.json"⟩ (fun _ => 2)
      (initWState : WState Nat) 0).estimatedTokens = 0 ∧
    (write ⟨none, some 1, "out.json"⟩ (fun _ => 2) (fun _ => 10)
      [(0 : Nat)]).files = [] := by
  decide

/-- C1 amended: the half-credit admission applies only to a record whose
own token count fits within `maxTokens` but whose addition overflows the
running estimate: such a record is admitted as the sole element of the
batch (after a flush when the batch was non-empty) with `estimatedTokens =
floor(t / 2)`.  A record whose token count alone exceeds `maxTokens` is
silently dropped: the token branch leaves the state unchanged. -/
theorem c1_amended {α : Type} (cfg : WConfig) (tc : α → Nat) (s : WState α)
    (d : α) :
    (isWithinTokenLimit (tc d) (tokenLimitArg cfg.maxTokens) = none →
      tokenStep cfg tc s d = s) ∧
    (∀ t, isWithinTokenLimit (tc d) (tokenLimitArg cfg.maxTokens) = some t →
      jsGt (s.estimatedTokens + t) cfg.maxTokens = true →
      (tokenStep cfg tc s d).currentResults = [d] ∧
      (tokenStep cfg tc s d).estimatedTokens = t / 2 ∧
      (s.currentResults ≠ [] →
        (tokenStep cfg tc s d).files =
          s.files ++ [(s.fileCounter, s.currentResults)])) := by
  constructor
  · intro h
    unfold tokenStep
    rw [h]
  · intro t ht hgt
    by_cases hne : s.currentResults.length > 0
    · refine ⟨?_, ?_, ?_⟩ <;>
        simp [tokenStep, ht, hgt, hne, writeBatchToFile]
    · have hnil : s.currentResults = [] := by
        simpa [List.length_eq_zero] using hne
      refine ⟨?_, ?_, ?_⟩ <;>
        simp [tokenStep, ht, hgt, hne, hnil]

/-- C1 witness: with `maxTokens = 10`, starting from a state with batch
`[99]` and estimate `6`: a record of 11 tokens is dropped unchanged, while
a record of 7 tokens flushes the batch and is admitted alone with
`estimatedTokens = 3`. -/
theorem c1_witness :
    tokenStep ⟨none, some 10, "out.json"⟩ (fun n => n)
      (⟨[99], 5, 1, 6, [], ""⟩ : WState Nat) 11 = ⟨[99], 5, 1, 6, [], ""⟩ ∧
    (tokenStep ⟨none, some 10, "out.json"⟩ (fun n => n)
      (⟨[99], 5, 1, 6, [], ""⟩ : WState Nat) 7).currentResults = [7] ∧
    (tokenStep ⟨none, some 10, "out.json"⟩ (fun n => n)
      (⟨[99], 5, 1, 6, [], ""⟩ : WState Nat) 7).estimatedTokens = 3 ∧
    (tokenStep ⟨none, some 10, "out.json"⟩ (fun n => n)
      (⟨[99], 5, 1, 6, [], ""⟩ : WState Nat) 7).files = [(1, [99])] := by
  refine ⟨?_, ?_⟩
  · exact (c1_amended ⟨none, some 10, "out.json"⟩ (fun n => n)
      (⟨[99], 5, 1, 6, [], ""⟩ : WState Nat) 11).1 (by decide)
  · have h := (c1_amended ⟨none, some 10, "out.json"⟩ (fun n => n)
      (⟨[99], 5, 1, 6, [], ""⟩ : WState Nat) 7).2 7 (by decide) (by decide)
    exact ⟨h.1, h.2.1, h.2.2 (by decide)⟩

/-- Flushing moves the open batch into the file list: the reconstructed
record stream is unchanged. -/
theorem outputSeq_writeBatchToFile {α : Type} (cfg : WConfig) (s : WState α) :
    outputSeq (writeBatchToFile cfg s) = outputSeq s := by
  simp [outputSeq, writeBatchToFile]

/-- The byte branch never changes the reconstructed record stream. -/
theorem outputSeq_byteStep {α : Type} (cfg : WConfig) (bs : α → Nat)
    (s : WState α) (d : α) :
    outputSeq (byteStep cfg bs s d) = outputSeq s := by
  unfold byteStep
  dsimp only
  split
  · rw [outputSeq_writeBatchToFile]
    rfl
  · rfl

/-- The token branch appends the record to the reconstructed stream
exactly when it is admitted. -/
theorem outputSeq_tokenStep {α : Type} (cfg : WConfig) (tc : α → Nat)
    (s : WState α) (d : α) :
    outputSeq (tokenStep cfg tc s d) =
      outputSeq s ++ (if tokenOk cfg tc d then [d] else []) := by
  unfold tokenStep tokenOk
  cases h : isWithinTokenLimit (tc d) (tokenLimitArg cfg.maxTokens) with
  | none => simp
  | some t =>
    simp only [Option.isSome_some, if_true]
    split
    · split
      · simp [outputSeq, writeBatchToFile]
      · simp [outputSeq]
    · simp [outputSeq]

/-- One record through `addContentOrSplit`: the reconstructed stream grows
by the record when it is admitted and is unchanged otherwise. -/
theorem outputSeq_addContentOrSplit {α : Type} (cfg : WConfig)
    (tc bs : α → Nat) (s : WState α) (d : α) :
    outputSeq (addContentOrSplit cfg tc bs s d) =
      outputSeq s ++ (if tokenOk cfg tc d then [d] else []) := by
  unfold addContentOrSplit
  rw [outputSeq_byteStep, outputSeq_tokenStep]

/-- Folding a record stream through `addContentOrSplit` appends exactly
the admitted records, in order. -/
theorem outputSeq_foldl {α : Type} (cfg : WConfig) (tc bs : α → Nat)
    (records : List α) :
    ∀ s : WState α,
      outputSeq (records.foldl (addContentOrSplit cfg tc bs) s) =
        outputSeq s ++ records.filter (tokenOk cfg tc) := by
  induction records with
  | nil => intro s; simp
  | cons d rest ih =>
    intro s
    rw [List.foldl_cons, ih, outputSeq_addContentOrSplit, List.filter_cons]
    by_cases h : tokenOk cfg tc d <;> simp [h]

/-- C2 counterexample: with `maxTokens = 1` and a single record of token
count 2, `write` produces no output file at all, so the concatenation of
all output files is empty and does not reproduce the input sequence. -/
theorem c2_counterexample :
    ((write ⟨none, some 1, "out.json"⟩ (fun _ => 2) (fun _ => 10)
        [(0 : Nat)]).files.map Prod.snd).flatten ≠ [0] := by
  decide

/-- C2 amended: concatenating the contents of all output files of `write`,
in file order then in-file order, yields exactly the subsequence of input
records whose own token count is within `maxTokens` (all of them when
`maxTokens` is unset) — in input order, without duplication; records whose
token count alone exceeds `maxTokens` are omitted. -/
theorem c2_amended {α : Type} (cfg : WConfig) (tc bs : α → Nat)
    (records : List α) :
    ((write cfg tc bs records).files.map Prod.snd).flatten =
      records.filter (tokenOk cfg tc) := by
  unfold write
  dsimp only
  have h := outputSeq_foldl cfg tc bs records initWState
  set s := records.foldl (addContentOrSplit cfg tc bs) initWState with hs
  have hinit : outputSeq (initWState : WState α) = [] := rfl
  rw [hinit] at h
  simp only [List.nil_append] at h
  split
  · rw [← h]
    simp [outputSeq, writeBatchToFile]
  · next hlen =>
    have hnil : s.currentResults = [] := by
      simpa [List.length_eq_zero] using hlen
    rw [← h]
    simp [outputSeq, hnil]

/-- C3 counterexample: `maxFileSize = 1`, `maxTokens = 100`, one record of
10 tokens and 2,000,000 bytes.  The byte threshold flushes (the file
counter reaches 2), `currentSize` is reset to 0, but `estimatedTokens`
remains 10 — a byte-triggered flush does not reset the token counter. -/
theorem c3_counterexample :
    (write ⟨some 1, some 100, "out.json"⟩ (fun _ => 10) (fun _ => 2000000)
      [(0 : Nat)]).fileCounter = 2 ∧
    (write ⟨some 1, some 100, "out.json"⟩ (fun _ => 10) (fun _ => 2000000)
      [(0 : Nat)]).currentSize = 0 ∧
    (write ⟨some 1, some 100, "out.json"⟩ (fun _ => 10) (fun _ => 2000000)
      [(0 : Nat)]).estimatedTokens = 10 ∧
    (write ⟨some 1, some 100, "out.json"⟩ (fun _ => 10) (fun _ => 2000000)
      [(0 : Nat)]).estimatedTokens ≠ 0 := by
  decide

/-- C3 amended: `writeBatchToFile` empties the batch, resets
`currentByteSize` to 0 and increments the file counter, but never touches
`estimatedTokens`: after a byte-triggered flush the accumulated token
estimate is retained (the byte branch leaves `estimatedTokens` unchanged
in both of its outcomes); `estimatedTokens` is reassigned only by the
token branch — to `floor(recordTokens / 2)` when its flush re-admits the
triggering record. -/
theorem c3_amended {α : Type} (cfg : WConfig) (bs : α → Nat) (s : WState α)
    (d : α) :
    (writeBatchToFile cfg s).currentSize = 0 ∧
    (writeBatchToFile cfg s).currentResults = [] ∧
    (writeBatchToFile cfg s).fileCounter = s.fileCounter + 1 ∧
    (writeBatchToFile cfg s).estimatedTokens = s.estimatedTokens ∧
    (byteStep cfg bs s d).estimatedTokens = s.estimatedTokens := by
  refine ⟨rfl, rfl, rfl, rfl, ?_⟩
  unfold byteStep
  dsimp only
  split <;> rfl

/-- C5: the scripted scenario.  With `maxTokens = 2000` and three records
of 1500 tokens each: record 1 is admitted (`estimatedTokens = 1500`);
record 2 overflows, flushing file 1 and entering alone with
`estimatedTokens = 750`; record 3 overflows again (750 + 1500 > 2000),
flushing file 2 and entering alone with `estimatedTokens = 750`; the final
flush writes file 3 — three output files of one record each. -/
theorem c5_scenario :
    (addContentOrSplit ⟨none, some 2000, "out.json"⟩ (fun d => d) (fun _ => 1)
      (initWState : WState Nat) 1500).currentResults = [1500] ∧
    (addContentOrSplit ⟨none, some 2000, "out.json"⟩ (fun d => d) (fun _ => 1)
      (initWState : WState Nat) 1500).estimatedTokens = 1500 ∧
    (addContentOrSplit ⟨none, some 2000, "out.json"⟩ (fun d => d) (fun _ => 1)
      (initWState : WState Nat) 1500).files = [] ∧
    (List.foldl (addContentOrSplit ⟨none, some 2000, "out.json"⟩ (fun d => d)
      (fun _ => 1)) (initWState : WState Nat) [1500, 1500]).files =
      [(1, [1500])] ∧
    (List.foldl (addContentOrSplit ⟨none, some 2000, "out.json"⟩ (fun d => d)
      (fun _ => 1)) (initWState : WState Nat) [1500, 1500]).currentResults =
      [1500] ∧
    (List.foldl (addContentOrSplit ⟨none, some 2000, "out.json"⟩ (fun d => d)
      (fun _ => 1)) (initWState : WState Nat) [1500, 1500]).estimatedTokens =
      750 ∧
    (List.foldl (addContentOrSplit ⟨none, some 2000, "out.json"⟩ (fun d => d)
      (fun _ => 1)) (initWState : WState Nat) [1500, 1500, 1500]).files =
      [(1, [1500]), (2, [1500])] ∧
    (List.foldl (addContentOrSplit ⟨none, some 2000, "out.json"⟩ (fun d => d)
      (fun _ => 1)) (initWState : WState Nat) [1500, 1500, 1500]).currentResults
      = [1500] ∧
    (List.foldl (addContentOrSplit ⟨none, some 2000, "out.json"⟩ (fun d => d)
      (fun _ => 1)) (initWState : WState Nat) [1500, 1500, 1500]).estimatedTokens
      = 750 ∧
    (write ⟨none, some 2000, "out.json"⟩ (fun d => d) (fun _ => 1)
      [1500, 1500, 1500]).files = [(1, [1500]), (2, [1500]), (3, [1500])] ∧
    (write ⟨none, some 2000, "out.json"⟩ (fun d => d) (fun _ => 1)
      [1500, 1500, 1500]).fileCounter = 4 := by
  decide

/-- C6 counterexample: with both limits unset and an empty record stream,
`write` produces no output file at all (the final flush is skipped for an
empty batch), not "exactly one output file for any number of records". -/
theorem c6_counterexample :
    (write ⟨none, none, "out.json"⟩ (fun d => d) (fun _ => 1)
      ([] : List Nat)).files = [] ∧
    (write ⟨none, none, "out.json"⟩ (fun d => d) (fun _ => 1)
      ([] : List Nat)).files.length ≠ 1 := by
  decide

/-- With both limits unset, the fold only accumulates: no intermediate
flush ever fires, so the batch collects every record in order while the
file list and the file counter stay put. -/
theorem foldl_no_limits {α : Type} (cfg : WConfig)
    (hf : cfg.maxFileSize = none) (ht : cfg.maxTokens = none)
    (tc bs : α → Nat) (records : List α) :
    ∀ s : WState α,
      (records.foldl (addContentOrSplit cfg tc bs) s).currentResults =
        s.currentResults ++ records ∧
      (records.foldl (addContentOrSplit cfg tc bs) s).files = s.files ∧
      (records.foldl (addContentOrSplit cfg tc bs) s).fileCounter =
        s.fileCounter := by
  induction records with
  | nil => intro s; simp
  | cons d rest ih =>
    intro s
    have hstep : addContentOrSplit cfg tc bs s d =
        { s with
          currentResults := s.currentResults ++ [d]
          estimatedTokens := s.estimatedTokens + tc d
          currentSize := s.currentSize + bs d } := by
      unfold addContentOrSplit tokenStep byteStep
      rw [ht]
      simp [isWithinTokenLimit, tokenLimitArg, jsGt, maxBytes, hf, ht]
    rw [List.foldl_cons, hstep]
    rcases ih { s with
      currentResults := s.currentResults ++ [d]
      estimatedTokens := s.estimatedTokens + tc d
      currentSize := s.currentSize + bs d } with ⟨h1, h2, h3⟩
    exact ⟨by rw [h1]; simp, h2, h3⟩

/-- C6 amended: with both `maxFileSize` and `maxTokens` unset, any
NON-EMPTY record stream yields exactly one output file, written with file
counter 1 (suffix `-1.json`) and containing every input record in order;
an empty stream yields no file. -/
theorem c6_amended {α : Type} (cfg : WConfig) (tc bs : α → Nat)
    (records : List α) (hf : cfg.maxFileSize = none)
    (ht : cfg.maxTokens = none) (hne : records ≠ []) :
    (write cfg tc bs records).files = [(1, records)] ∧
    (write cfg tc bs records).nextFileNameString = nextFileName cfg 1 := by
  unfold write
  dsimp only
  rcases foldl_no_limits cfg hf ht tc bs records initWState with ⟨h1, h2, h3⟩
  set s := records.foldl (addContentOrSplit cfg tc bs) initWState with hs
  have hres : s.currentResults = records := by
    rw [h1]; rfl
  have hlen : s.currentResults.length > 0 := by
    rw [hres]
    exact List.length_pos.mpr hne
  simp only [hlen, if_true]
  unfold writeBatchToFile
  have hfc : s.fileCounter = 1 := by rw [h3]; rfl
  have hfl : s.files = [] := by rw [h2]; rfl
  exact ⟨by rw [hfl, hres, hfc]; rfl, by rw [hfc]⟩

/-- C6 witness: two records, no limits: one file numbered 1 holding both
records, and the reported file name is `out-1.json`. -/
theorem c6_witness :
    (write ⟨none, none, "out.json"⟩ (fun d => d) (fun _ => 1)
      [(5 : Nat), 7]).files = [(1, [5, 7])] ∧
    (write ⟨none, none, "out.json"⟩ (fun d => d) (fun _ => 1)
      [(5 : Nat), 7]).nextFileNameString = "out-1.json" := by
  have h := c6_amended ⟨none, none, "out.json"⟩ (fun d => d) (fun _ => 1)
    [(5 : Nat), 7] rfl rfl (by decide)
  exact ⟨h.1, h.2.trans (by decide)⟩

/-- Appending one record adds its bytes to the batch total. -/
theorem sumBytes_concat {α : Type} (bs : α → Nat) (l : List α) (d : α) :
    sumBytes bs (l ++ [d]) = sumBytes bs l + bs d := by
  simp [sumBytes]

/-- Dropping the last record cannot increase the batch total. -/
theorem sumBytes_dropLast_le {α : Type} (bs : α → Nat) (l : List α) :
    sumBytes bs l.dropLast ≤ sumBytes bs l := by
  induction l with
  | nil => simp
  | cons a l ih =>
    cases l with
    | nil => simp [sumBytes]
    | cons b l' =>
      simp only [List.dropLast_cons₂, sumBytes, List.map_cons, List.sum_cons]
        at ih ⊢
      exact Nat.add_le_add_left ih (bs a)

/-- Case equation: a record whose token count is not a number leaves the
token branch inert. -/
theorem tokenStep_eq_none {α : Type} {cfg : WConfig} {tc : α → Nat}
    {s : WState α} {d : α}
    (h : isWithinTokenLimit (tc d) (tokenLimitArg cfg.maxTokens) = none) :
    tokenStep cfg tc s d = s := by
  unfold tokenStep
  rw [h]

/-- Case equation: overflow with a non-empty batch flushes, then admits
the record alone with the half-credit estimate. -/
theorem tokenStep_eq_flush {α : Type} {cfg : WConfig} {tc : α → Nat}
    {s : WState α} {d : α} {t : Nat}
    (ht : isWithinTokenLimit (tc d) (tokenLimitArg cfg.maxTokens) = some t)
    (hgt : jsGt (s.estimatedTokens + t) cfg.maxTokens = true)
    (hne : s.currentResults ≠ []) :
    tokenStep cfg tc s d =
      { writeBatchToFile cfg s with
        estimatedTokens := t / 2
        currentResults := [d] } := by
  have hlen : s.currentResults.length > 0 := List.length_pos.mpr hne
  unfold tokenStep
  rw [ht]
  simp [hgt, hlen, writeBatchToFile]

/-- Case equation: overflow with an empty batch admits the record alone
with the half-credit estimate and no flush. -/
theorem tokenStep_eq_overflow_empty {α : Type} {cfg : WConfig}
    {tc : α → Nat} {s : WState α} {d : α} {t : Nat}
    (ht : isWithinTokenLimit (tc d) (tokenLimitArg cfg.maxTokens) = some t)
    (hgt : jsGt (s.estimatedTokens + t) cfg.maxTokens = true)
    (hnil : s.currentResults = []) :
    tokenStep cfg tc s d =
      { s with
        estimatedTokens := t / 2
        currentResults := [d] } := by
  unfold tokenStep
  rw [ht]
  simp [hgt, hnil]

/-- Case equation: a fitting record is appended and its tokens added. -/
theorem tokenStep_eq_fits {α : Type} {cfg : WConfig} {tc : α → Nat}
    {s : WState α} {d : α} {t : Nat}
    (ht : isWithinTokenLimit (tc d) (tokenLimitArg cfg.maxTokens) = some t)
    (hgt : jsGt (s.estimatedTokens + t) cfg.maxTokens = false) :
    tokenStep cfg tc s d =
      { s with
        currentResults := s.currentResults ++ [d]
        estimatedTokens := s.estimatedTokens + t } := by
  unfold tokenStep
  rw [ht]
  simp [hgt]

/-- Case equation: the byte branch flushes when the grown counter exceeds
the cap. -/
theorem byteStep_eq_flush {α : Type} {cfg : WConfig} {bs : α → Nat}
    {s : WState α} {d : α}
    (h : jsGt (s.currentSize + bs d) (maxBytes cfg) = true) :
    byteStep cfg bs s d =
      writeBatchToFile cfg { s with currentSize := s.currentSize + bs d } := by
  unfold byteStep
  dsimp only
  rw [h]
  simp

/-- Case equation: the byte branch otherwise just grows the counter. -/
theorem byteStep_eq_noflush {α : Type} {cfg : WConfig} {bs : α → Nat}
    {s : WState α} {d : α}
    (h : jsGt (s.currentSize + bs d) (maxBytes cfg) = false) :
    byteStep cfg bs s d = { s with currentSize := s.currentSize + bs d } := by
  unfold byteStep
  dsimp only
  rw [h]
  simp

/-- What the token branch leaves for the byte branch, when `maxBytes =
some M` and the byte invariant held before the record: the byte counter
did not grow, the batch bytes are covered by the counter plus the incoming
record's bytes, the batch short of its last record fits in `M`, and every
file written so far obeys the per-file bound. -/
theorem tokenStep_inv {α : Type} (cfg : WConfig) (tc : α → Nat)
    {bs : α → Nat} {M : Nat} (s : WState α) (d : α) (h : ByteInv bs M s) :
    (tokenStep cfg tc s d).currentSize ≤ s.currentSize ∧
    sumBytes bs (tokenStep cfg tc s d).currentResults ≤
      (tokenStep cfg tc s d).currentSize + bs d ∧
    sumBytes bs (tokenStep cfg tc s d).currentResults.dropLast ≤ M ∧
    (∀ f ∈ (tokenStep cfg tc s d).files, sumBytes bs f.2.dropLast ≤ M) := by
  obtain ⟨h1, h2, h3⟩ := h
  have hdl : sumBytes bs s.currentResults.dropLast ≤ M :=
    le_trans (le_trans (sumBytes_dropLast_le bs _) h1) h2
  cases hiw : isWithinTokenLimit (tc d) (tokenLimitArg cfg.maxTokens) with
  | none =>
    rw [tokenStep_eq_none hiw]
    exact ⟨le_refl _, le_trans h1 (Nat.le_add_right _ _), hdl, h3⟩
  | some t =>
    cases hgt : jsGt (s.estimatedTokens + t) cfg.maxTokens with
    | true =>
      by_cases hne : s.currentResults = []
      · rw [tokenStep_eq_overflow_empty hiw hgt hne]
        refine ⟨le_refl _, ?_, ?_, h3⟩
        · simp [sumBytes]
        · simp [sumBytes]
      · rw [tokenStep_eq_flush hiw hgt hne]
        refine ⟨Nat.zero_le _, ?_, ?_, ?_⟩
        · simp [writeBatchToFile, sumBytes]
        · simp [sumBytes]
        · intro f hf
          simp only [writeBatchToFile, List.mem_append, List.mem_singleton]
            at hf
          rcases hf with hf | hf
          · exact h3 f hf
          · subst hf
            exact le_trans (le_trans (sumBytes_dropLast_le bs _) h1) h2
    | false =>
      rw [tokenStep_eq_fits hiw hgt]
      refine ⟨le_refl _, ?_, ?_, h3⟩
      · rw [show ({ s with
            currentResults := s.currentResults ++ [d]
            estimatedTokens := s.estimatedTokens + t } :
            WState α).currentResults = s.currentResults ++ [d] from rfl,
          sumBytes_concat]
        exact Nat.add_le_add_right h1 (bs d)
      · rw [show ({ s with
            currentResults := s.currentResults ++ [d]
            estimatedTokens := s.estimatedTokens + t } :
            WState α).currentResults = s.currentResults ++ [d] from rfl,
          List.dropLast_concat]
        exact le_trans h1 h2

/-- `addContentOrSplit` preserves the byte invariant. -/
theorem byteInv_addContentOrSplit {α : Type} (cfg : WConfig)
    (tc bs : α → Nat) {M : Nat} (hM : maxBytes cfg = some M) (s : WState α)
    (d : α) (h : ByteInv bs M s) :
    ByteInv bs M (addContentOrSplit cfg tc bs s d) := by
  obtain ⟨t1, t2, t3, t4⟩ := tokenStep_inv cfg tc s d h
  unfold addContentOrSplit
  cases hb : jsGt ((tokenStep cfg tc s d).currentSize + bs d) (maxBytes cfg)
    with
  | true =>
    rw [byteStep_eq_flush hb]
    refine ⟨?_, Nat.zero_le M, ?_⟩
    · simp [writeBatchToFile, sumBytes]
    · intro f hf
      simp only [writeBatchToFile, List.mem_append, List.mem_singleton] at hf
      rcases hf with hf | hf
      · exact t4 f hf
      · subst hf
        exact t3
  | false =>
    rw [byteStep_eq_noflush hb]
    rw [hM] at hb
    simp only [jsGt, decide_eq_false_iff_not] at hb
    exact ⟨t2, Nat.le_of_not_lt hb, t4⟩

/-- The byte invariant holds along the whole fold. -/
theorem byteInv_foldl {α : Type} (cfg : WConfig) (tc bs : α → Nat)
    {M : Nat} (hM : maxBytes cfg = some M) (records : List α) :
    ∀ s : WState α, ByteInv bs M s →
      ByteInv bs M (records.foldl (addContentOrSplit cfg tc bs) s) := by
  induction records with
  | nil => intro s h; exact h
  | cons d rest ih =>
    intro s h
    rw [List.foldl_cons]
    exact ih _ (byteInv_addContentOrSplit cfg tc bs hM s d h)

/-- C4 counterexample: `maxFileSize = 1` (cap 1,048,576 bytes), no token
limit, two records of 600,000 bytes each.  The byte check runs only after
a record is added, so the single produced file holds BOTH records —
1,200,000 bytes, over the cap — although neither record alone is
oversized. -/
theorem c4_counterexample :
    (write ⟨some 1, none, "out.json"⟩ (fun _ => 1) (fun _ => 600000)
      [(0 : Nat), 1]).files = [(1, [0, 1])] ∧
    maxBytes ⟨some 1, none, "out.json"⟩ = some 1048576 ∧
    sumBytes (fun _ => 600000) [(0 : Nat), 1] = 1200000 ∧
    1048576 < 1200000 := by
  refine ⟨by decide, rfl, rfl, by decide⟩

/-- C4 amended: when `maxFileSize` is set, every output file fits within
`maxFileSize * 1MB` once its final record is excluded — equivalently, a
file can exceed the cap only through its last record (the byte threshold
is checked after the record is admitted), and this is not restricted to
single-record files. -/
theorem c4_amended {α : Type} (cfg : WConfig) (tc bs : α → Nat)
    (records : List α) {M : Nat} (hM : maxBytes cfg = some M) :
    ∀ f ∈ (write cfg tc bs records).files, sumBytes bs f.2.dropLast ≤ M := by
  have hinit : ByteInv bs M (initWState : WState α) := by
    refine ⟨by simp [sumBytes, initWState], Nat.zero_le M, ?_⟩
    intro f hf
    simp [initWState] at hf
  have h := byteInv_foldl cfg tc bs hM records initWState hinit
  unfold write
  dsimp only
  obtain ⟨h1, h2, h3⟩ := h
  split
  · intro f hf
    simp only [writeBatchToFile, List.mem_append, List.mem_singleton] at hf
    rcases hf with hf | hf
    · exact h3 f hf
    · subst hf
      exact le_trans (le_trans (sumBytes_dropLast_le bs _) h1) h2
  · exact h3

/-- C4 witness: in the counterexample run the produced file `(1, [0, 1])`
satisfies the amended bound: without its last record it holds 600,000
bytes, within the 1,048,576-byte cap. -/
theorem c4_witness :
    sumBytes (fun _ => 600000)
      (((1 : Nat), [(0 : Nat), 1]).2.dropLast) ≤ 1048576 := by
  exact c4_amended ⟨some 1, none, "out.json"⟩ (fun _ => 1) (fun _ => 600000)
    [(0 : Nat), 1] rfl ((1 : Nat), [(0 : Nat), 1]) (by decide)

/-- C9: the byte counter counts every consumed record — a record dropped
by the token branch (token count not a number) leaves the state untouched
there, yet its serialized bytes are still added to `currentSize`; when
that addition crosses `maxBytes` while the batch is empty, the byte branch
flushes anyway and writes a file whose contents are the empty array. -/
theorem c9_drop_still_counts {α : Type} (cfg : WConfig) (tc bs : α → Nat)
    (s : WState α) (d : α)
    (h1 : isWithinTokenLimit (tc d) (tokenLimitArg cfg.maxTokens) = none)
    (h2 : s.currentResults = [])
    (h3 : jsGt (s.currentSize + bs d) (maxBytes cfg) = true) :
    tokenStep cfg tc s d = s ∧
    (addContentOrSplit cfg tc bs s d).files =
      s.files ++ [(s.fileCounter, [])] ∧
    (addContentOrSplit cfg tc bs s d).currentSize = 0 := by
  have ht : tokenStep cfg tc s d = s := tokenStep_eq_none h1
  have hb : addContentOrSplit cfg tc bs s d =
      writeBatchToFile cfg { s with currentSize := s.currentSize + bs d } := by
    unfold addContentOrSplit
    rw [ht]
    exact byteStep_eq_flush h3
  refine ⟨ht, ?_, ?_⟩
  · rw [hb]
    simp [writeBatchToFile, h2]
  · rw [hb]
    rfl

/-- C9 witness: `maxTokens = 1`, `maxFileSize = 1`, one record of 5 tokens
and 2,000,000 bytes, starting from the initial state: the record is
dropped by the token branch, yet the byte flush fires and the single
output file holds the empty array. -/
theorem c9_witness :
    (addContentOrSplit ⟨some 1, some 1, "out.json"⟩ (fun _ => 5)
      (fun _ => 2000000) (initWState : WState Nat) 0).files =
      ([] : List (Nat × List Nat)) ++ [(1, [])] ∧
    (addContentOrSplit ⟨some 1, some 1, "out.json"⟩ (fun _ => 5)
      (fun _ => 2000000) (initWState : WState Nat) 0).currentSize = 0 := by
  have h := c9_drop_still_counts ⟨some 1, some 1, "out.json"⟩ (fun _ => 5)
    (fun _ => 2000000) (initWState : WState Nat) 0 (by decide) rfl (by decide)
  exact ⟨h.2.1, h.2.2⟩

/-- No segment produced by splitting on `/` contains `/`. -/
theorem splitOnSlash_no_slash :
    ∀ l : List Char, ∀ seg ∈ splitOnSlash l, '/' ∉ seg := by
  intro l
  induction l with
  | nil =>
    intro seg hseg
    simp [splitOnSlash] at hseg
    simp [hseg]
  | cons c rest ih =>
    intro seg hseg
    unfold splitOnSlash at hseg
    by_cases hc : c = '/'
    · rw [if_pos hc] at hseg
      rcases List.mem_cons.mp hseg with h | h
      · simp [h]
      · exact ih seg h
    · rw [if_neg hc] at hseg
      cases hsp : splitOnSlash rest with
      | nil =>
        rw [hsp] at hseg
        simp at hseg
        intro hmem
        rw [hseg] at hmem
        rcases List.mem_singleton.mp hmem with h
        exact hc h.symm
      | cons l0 ls =>
        rw [hsp] at hseg
        rcases List.mem_cons.mp hseg with h | h
        · subst h
          intro hmem
          rcases List.mem_cons.mp hmem with h | h
          · exact hc h.symm
          · exact ih l0 (hsp ▸ List.mem_cons_self l0 ls) h
        · exact ih seg (hsp ▸ List.mem_cons_of_mem l0 h)

/-- Splitting on `/` never yields the empty list of segments. -/
theorem splitOnSlash_ne_nil (l : List Char) : splitOnSlash l ≠ [] := by
  cases l with
  | nil => simp [splitOnSlash]
  | cons c rest =>
    unfold splitOnSlash
    by_cases hc : c = '/'
    · rw [if_pos hc]
      exact List.cons_ne_nil _ _
    · rw [if_neg hc]
      cases splitOnSlash rest with
      | nil => exact List.cons_ne_nil _ _
      | cons l0 ls => exact List.cons_ne_nil _ _

/-- `getLastD` of a non-empty list is an element of it. -/
theorem getLastD_mem_of_ne_nil {β : Type} (L : List β) (d : β) (h : L ≠ []) :
    L.getLastD d ∈ L := by
  cases L with
  | nil => exact absurd rfl h
  | cons x xs =>
    rw [List.getLastD_cons]
    exact List.getLastD_mem_cons xs x

/-- The URL-based fallback name is never empty. -/
theorem fallbackName_ne_empty (url : String) : fallbackName url ≠ "" := by
  unfold fallbackName
  dsimp only
  split
  · decide
  · next h => exact h

/-- The URL-based fallback name contains no `/`. -/
theorem fallbackName_no_slash (url : String) :
    ∀ c ∈ (fallbackName url).data, c ≠ '/' := by
  unfold fallbackName lastSegment
  dsimp only
  split
  · have h : ∀ c ∈ "index".data, c ≠ '/' := by decide
    exact h
  · intro c hc heq
    have hne := splitOnSlash_ne_nil url.data
    have hmem := getLastD_mem_of_ne_nil _ ([] : List Char) hne
    exact splitOnSlash_no_slash url.data _ hmem (heq ▸ hc)

/-- `replace(/\//g, "_")` never outputs `/`. -/
theorem replaceSlash_ne_slash (c : Char) : replaceSlash c ≠ '/' := by
  unfold replaceSlash
  split
  · decide
  · next h => exact h

/-- ASCII lowercasing never turns a non-`/` character into `/`. -/
theorem toLowerChar_ne_slash (c : Char) (h : c ≠ '/') :
    toLowerChar c ≠ '/' := by
  unfold toLowerChar
  split
  · next hc =>
    have key : ∀ n < 91, 65 ≤ n → Char.ofNat (n + 32) ≠ '/' := by decide
    exact key c.toNat (Nat.lt_succ_of_le hc.2) hc.1
  · exact h

/-- The cleaned-up captured group contains no `/`. -/
theorem cleanGroup_no_slash (g : List Char) :
    ∀ c ∈ (cleanGroup g).data, c ≠ '/' := by
  intro c hc
  unfold cleanGroup at hc
  rcases List.mem_map.mp hc with ⟨b, hb, rfl⟩
  rcases List.mem_map.mp hb with ⟨a, _, rfl⟩
  exact toLowerChar_ne_slash _ (replaceSlash_ne_slash a)

/-- C7 counterexample: the URL `https://x//` matches the pattern
`https://x/**` with captured group `/`, whose clean-up strips every
character: `extractFilename` returns the EMPTY string, violating the
claimed non-emptiness. -/
theorem c7_counterexample :
    extractFilename "https://x//" ["https://x/**"] = "" := by
  decide

/-- C7 amended: `extractFilename` never returns a string containing `/`,
and on the no-pattern-match fallback path its result is also non-empty;
but when a matching pattern's captured group consists entirely of slashes
the clean-up yields the empty string. -/
theorem c7_amended (url : String) (patterns : List String) :
    (∀ c ∈ (extractFilename url patterns).data, c ≠ '/') ∧
    (patterns.find? (fun p => regexTest p url) = none →
      extractFilename url patterns ≠ "") := by
  constructor
  · unfold extractFilename
    cases hf : patterns.find? (fun p => regexTest p url) with
    | none =>
      dsimp only
      exact fallbackName_no_slash url
    | some pat =>
      dsimp only
      cases hm : jsRegexMatch pat url with
      | none =>
        dsimp only
        exact fallbackName_no_slash url
      | some gs =>
        cases gs with
        | nil =>
          dsimp only
          exact fallbackName_no_slash url
        | cons g rest =>
          dsimp only
          split
          · exact fallbackName_no_slash url
          · exact cleanGroup_no_slash g
  · intro hf
    unfold extractFilename
    rw [hf]
    dsimp only
    exact fallbackName_ne_empty url

/-- C7 witness: the matched-pattern result `a_b` contains no slash, and a
URL matching no pattern (`https://y/a` against `https://x/**`) gets the
non-empty fallback name. -/
theorem c7_witness :
    '/' ∉ (extractFilename "https://x/a/b" ["https://x/**"]).data ∧
    extractFilename "https://y/a" ["https://x/**"] ≠ "" := by
  exact ⟨fun hmem =>
      (c7_amended "https://x/a/b" ["https://x/**"]).1 '/' hmem rfl,
    (c7_amended "https://y/a" ["https://x/**"]).2 (by decide)⟩

/-- C8: when the first pattern that tests positively against the URL
produces a regex match whose first captured group is non-empty,
`extractFilename` returns exactly that group after the clean-up pipeline —
leading/trailing slashes stripped, interior slashes replaced by
underscores, the result lowercased (`cleanGroup`). -/
theorem c8_first_group (url : String) (patterns : List String) (pat : String)
    (g : List Char) (gs : List (List Char))
    (hfind : patterns.find? (fun p => regexTest p url) = some pat)
    (hmatch : jsRegexMatch pat url = some (g :: gs))
    (hg : g.isEmpty = false) :
    extractFilename url patterns = cleanGroup g := by
  unfold extractFilename
  rw [hfind]
  dsimp only
  rw [hmatch]
  dsimp only
  rw [hg]
  simp

/-- C8 witness: for the URL `https://x/a/b` against pattern
`https://x/**` the regex `https://x/(.+)` captures `a/b`, and
`extractFilename` returns `a_b`. -/
theorem c8_witness :
    jsRegexMatch "https://x/**" "https://x/a/b" = some [['a', '/', 'b']] ∧
    extractFilename "https://x/a/b" ["https://x/**"] = "a_b" := by
  constructor
  · decide
  · have h := c8_first_group "https://x/a/b" ["https://x/**"] "https://x/**"
      ['a', '/', 'b'] [] (by decide) (by decide) (by decide)
    rw [h]
    decide

/-- If nothing in the first list satisfies the predicate, searching the
concatenation searches the second list. -/
theorem find?_append_of_none {β : Type} (p : β → Bool) (l₁ l₂ : List β)
    (h : l₁.find? p = none) : (l₁ ++ l₂).find? p = l₂.find? p := by
  rw [List.find?_append, h]
  rfl

/-- If the first list already yields a hit, the concatenation yields it. -/
theorem find?_append_of_some {β : Type} (p : β → Bool) (l₁ l₂ : List β)
    {b : β} (h : l₁.find? p = some b) : (l₁ ++ l₂).find? p = some b := by
  rw [List.find?_append, h]
  rfl

/-- C10: with `savePerPage` enabled, the per-page store after processing a
record stream holds, at every path, exactly the most recent record whose
derived path (`pages/<outputStem>/<extractFilename(url)>.json`) equals
that path — `writeFile` does not check for existence, so a later record
whose URL derives the same filename silently replaces the earlier one. -/
theorem c10_last_write_wins (cfg : PageConfig) (h : cfg.savePerPage = true)
    (fs : String → Option PageData) (rs : List PageData) (p : String) :
    processPages cfg fs rs p =
      (rs.reverse.find? (fun d => pageFilePath cfg d.url == p)).elim
        (fs p) some := by
  induction rs generalizing fs with
  | nil => simp [processPages]
  | cons r rs ih =>
    show processPages cfg (savePageToFile cfg fs r) rs p = _
    rw [ih (savePageToFile cfg fs r)]
    rw [List.reverse_cons]
    cases hf : rs.reverse.find? (fun d => pageFilePath cfg d.url == p) with
    | some d =>
      rw [find?_append_of_some _ _ _ hf]
      rfl
    | none =>
      rw [find?_append_of_none _ _ _ hf]
      unfold savePageToFile
      rw [h]
      by_cases hq : p = pageFilePath cfg r.url
      · simp [List.find?, hq]
      · have hb : (pageFilePath cfg r.url == p) = false :=
          beq_eq_false_iff_ne.mpr (Ne.symm hq)
        simp [List.find?, hq, hb]

/-- C10 witness: two records with DIFFERENT URLs (`https://x/A` and
`https://x/a`) derive the same filename `a`, so the later record is the
only one retained at `pages/out/a.json`. -/
theorem c10_witness :
    processPages ⟨true, ["https://x/**"], "out.json"⟩ (fun _ => none)
      [⟨"t1", "https://x/A", "h1"⟩, ⟨"t2", "https://x/a", "h2"⟩]
      "pages/out/a.json" = some ⟨"t2", "https://x/a", "h2"⟩ ∧
    ("https://x/A" : String) ≠ "https://x/a" := by
  constructor
  · have h := c10_last_write_wins ⟨true, ["https://x/**"], "out.json"⟩ rfl
      (fun _ => none)
      [⟨"t1", "https://x/A", "h1"⟩, ⟨"t2", "https://x/a", "h2"⟩]
      "pages/out/a.json"
    rw [h]
    decide
  · decide
